import Mathlib

set_option maxRecDepth 8000
set_option maxHeartbeats 2000000

/-!
Verification development for the AutoDocGen repository
(`app/chunking.py`, `app/save_to_vector_db.py`, `app/graph.py`).

The Python code is shallowly embedded: pure functions become Lean
functions, filesystem reads and external services (git, OpenAI, FAISS,
`ast`, `nbformat`) are modelled as explicit inputs, and fallible Python
code (statements that may raise) returns `Except Unit`.  Machine
integers do not occur; Python `int` is `Int`/`Nat`, JSON numbers are
`Rat`, and `len` on `str` counts unicode codepoints exactly as Lean's
`String.length` counts `Char`s.
-/

namespace AutoDocGen

/-! ## Python string primitives -/

/-- The whitespace set stripped by Python `str.strip()` (ASCII part). -/
def isPySpace (c : Char) : Bool :=
  c = ' ' || c = '\t' || c = '\n' || c = '\r' || c = '\x0b' || c = '\x0c'

/-- Python `str.strip()`: drop leading and trailing whitespace. -/
def pyStrip (s : String) : String :=
  String.mk (((s.data.dropWhile isPySpace).reverse.dropWhile isPySpace).reverse)

/-- Python `str.lower()` (ASCII case folding, which covers all strings the
pipeline compares). -/
def strToLower (s : String) : String := String.mk (s.data.map Char.toLower)

/-- Python `s.count(chr(10))`: the number of newline characters. -/
def countNL (s : String) : Nat := s.data.countP (fun c => c = '\n')

/-- Substring test (`sub in s` in Python): `sub` occurs contiguously in `l`. -/
def containsSeq (sub : List Char) : List Char → Bool
  | [] => sub.isEmpty
  | c :: t => sub.isPrefixOf (c :: t) || containsSeq sub t

/-- Python `sub in s` on strings. -/
def strHas (s sub : String) : Bool := containsSeq sub.data s.data

/-- Python `os.path.basename` / `Path(p).name` for slash-separated paths
without a trailing slash: the text after the last `/`. -/
def baseNameOf (s : String) : String :=
  String.mk (s.data.foldl (fun acc c => if c = '/' then [] else acc ++ [c]) [])

/-- Index of the last `.` in a character list, if any. -/
def lastDot (l : List Char) : Option Nat :=
  (l.foldl (fun (st : Nat × Option Nat) c =>
    (st.1 + 1, if c = '.' then some st.1 else st.2)) (0, none)).2

/-- Python `Path(name).suffix` on a bare filename: the final `.xxx` part,
empty unless the last dot is at an index `i` with `0 < i < len - 1`
(CPython's exact rule, so `.gitignore`, `x.` and `archive` all give `""`,
and `archive.tar.gz` gives `".gz"`). -/
def sfxOf (name : String) : String :=
  match lastDot name.data with
  | none => ""
  | some i =>
    if 0 < i ∧ i + 1 < name.data.length then String.mk (name.data.drop i) else ""

/-- Slash-joined path string (`str(Path(...))` with `/` separators). -/
def pathStr : List String → String
  | [] => ""
  | [x] => x
  | x :: y :: t => x ++ "/" ++ pathStr (y :: t)

/-! ## MD5 (RFC 1321), used by `_stable_id` in `save_to_vector_db.py`.

Implemented over `Nat` bytes/words with explicit `% 2^32` where 32-bit
overflow matters. -/

def md5K : List Nat := [
  0xd76aa478, 0xe8c7b756, 0x242070db, 0xc1bdceee,
  0xf57c0faf, 0x4787c62a, 0xa8304613, 0xfd469501,
  0x698098d8, 0x8b44f7af, 0xffff5bb1, 0x895cd7be,
  0x6b901122, 0xfd987193, 0xa679438e, 0x49b40821,
  0xf61e2562, 0xc040b340, 0x265e5a51, 0xe9b6c7aa,
  0xd62f105d, 0x02441453, 0xd8a1e681, 0xe7d3fbc8,
  0x21e1cde6, 0xc33707d6, 0xf4d50d87, 0x455a14ed,
  0xa9e3e905, 0xfcefa3f8, 0x676f02d9, 0x8d2a4c8a,
  0xfffa3942, 0x8771f681, 0x6d9d6122, 0xfde5380c,
  0xa4beea44, 0x4bdecfa9, 0xf6bb4b60, 0xbebfbc70,
  0x289b7ec6, 0xeaa127fa, 0xd4ef3085, 0x04881d05,
  0xd9d4d039, 0xe6db99e5, 0x1fa27cf8, 0xc4ac5665,
  0xf4292244, 0x432aff97, 0xab9423a7, 0xfc93a039,
  0x655b59c3, 0x8f0ccc92, 0xffeff47d, 0x85845dd1,
  0x6fa87e4f, 0xfe2ce6e0, 0xa3014314, 0x4e0811a1,
  0xf7537e82, 0xbd3af235, 0x2ad7d2bb, 0xeb86d391]

def md5S : List Nat := [
  7, 12, 17, 22, 7, 12, 17, 22, 7, 12, 17, 22, 7, 12, 17, 22,
  5, 9, 14, 20, 5, 9, 14, 20, 5, 9, 14, 20, 5, 9, 14, 20,
  4, 11, 16, 23, 4, 11, 16, 23, 4, 11, 16, 23, 4, 11, 16, 23,
  6, 10, 15, 21, 6, 10, 15, 21, 6, 10, 15, 21, 6, 10, 15, 21]

def rotl32 (x c : Nat) : Nat := ((x <<< c) ||| (x >>> (32 - c))) % 4294967296

def md5F (i b c d : Nat) : Nat × Nat :=
  if i < 16 then ((b &&& c) ||| ((b ^^^ 4294967295) &&& d), i % 16)
  else if i < 32 then ((d &&& b) ||| ((d ^^^ 4294967295) &&& c), (5 * i + 1) % 16)
  else if i < 48 then (b ^^^ c ^^^ d, (3 * i + 5) % 16)
  else (c ^^^ (b ||| (d ^^^ 4294967295)), (7 * i) % 16)

def md5Step (M : List Nat) (st : Nat × Nat × Nat × Nat) (i : Nat) :
    Nat × Nat × Nat × Nat :=
  let a := st.1
  let b := st.2.1
  let c := st.2.2.1
  let d := st.2.2.2
  let fg := md5F i b c d
  let f2 := (fg.1 + a + md5K.getD i 0 + M.getD fg.2 0) % 4294967296
  (d, (b + rotl32 f2 (md5S.getD i 0)) % 4294967296, b, c)

def md5Block (st : Nat × Nat × Nat × Nat) (M : List Nat) :
    Nat × Nat × Nat × Nat :=
  let r := (List.range 64).foldl (md5Step M) st
  ((st.1 + r.1) % 4294967296, (st.2.1 + r.2.1) % 4294967296,
   (st.2.2.1 + r.2.2.1) % 4294967296, (st.2.2.2 + r.2.2.2) % 4294967296)

/-- A 64-byte block as 16 little-endian 32-bit words. -/
def md5Words (blk : List Nat) : List Nat :=
  (List.range 16).map (fun j =>
    blk.getD (4 * j) 0 + 256 * blk.getD (4 * j + 1) 0 +
    65536 * blk.getD (4 * j + 2) 0 + 16777216 * blk.getD (4 * j + 3) 0)

/-- MD5 padding: `0x80`, zeros to 56 mod 64, then the bit length as a
little-endian 64-bit quantity. -/
def md5Pad (msg : List Nat) : List Nat :=
  let z := (120 - ((msg.length + 1) % 64)) % 64
  msg ++ [128] ++ List.replicate z 0 ++
    (List.range 8).map (fun j =>
      (((msg.length * 8) % 18446744073709551616) >>> (8 * j)) % 256)

def blocksGo : Nat → List Nat → List (List Nat)
  | 0, _ => []
  | n + 1, l => l.take 64 :: blocksGo n (l.drop 64)

/-- Split a byte list into 64-byte blocks (the input length is always a
multiple of 64 after padding). -/
def blocks64 (l : List Nat) : List (List Nat) :=
  blocksGo ((l.length + 63) / 64) l

def hexDigit (n : Nat) : Char :=
  if n < 10 then Char.ofNat (48 + n) else Char.ofNat (87 + n)

def hexByte (n : Nat) : String := String.mk [hexDigit (n / 16 % 16), hexDigit (n % 16)]

/-- Hex rendering of one 32-bit word, least significant byte first. -/
def wordHexLE (w : Nat) : String :=
  hexByte (w % 256) ++ hexByte (w / 256 % 256) ++
    hexByte (w / 65536 % 256) ++ hexByte (w / 16777216 % 256)

/-- MD5 hex digest of a byte sequence. -/
def md5Hex (msg : List Nat) : String :=
  let st := (blocks64 (md5Pad msg)).foldl
    (fun st blk => md5Block st (md5Words blk))
    (0x67452301, 0xefcdab89, 0x98badcfe, 0x10325476)
  wordHexLE st.1 ++ wordHexLE st.2.1 ++ wordHexLE st.2.2.1 ++ wordHexLE st.2.2.2

/-- UTF-8 encoding of a single codepoint. -/
def utf8Char (c : Char) : List Nat :=
  let n := c.toNat
  if n < 128 then [n]
  else if n < 2048 then [192 + n / 64, 128 + n % 64]
  else if n < 65536 then [224 + n / 4096, 128 + (n / 64) % 64, 128 + n % 64]
  else [240 + n / 262144, 128 + (n / 4096) % 64, 128 + (n / 64) % 64, 128 + n % 64]

/-- Python `s.encode("utf-8")` as a byte list. -/
def utf8Str (s : String) : List Nat := s.data.flatMap utf8Char

/-! ## JSON serialization as performed by
`json.dumps(metadata, sort_keys=True, ensure_ascii=False)` on a flat
string-valued dict. -/

/-- Escaping of one character inside a JSON string, exactly as CPython's
encoder does with `ensure_ascii=False`. -/
def jsonEscChar (c : Char) : String :=
  if c = '"' then "\\\""
  else if c = '\\' then "\\\\"
  else if c = '\n' then "\\n"
  else if c = '\t' then "\\t"
  else if c = '\r' then "\\r"
  else if c = '\x08' then "\\b"
  else if c = '\x0c' then "\\f"
  else if c.toNat < 32 then "\\u00" ++ hexByte c.toNat
  else String.singleton c

def jsonQuote (s : String) : String :=
  "\"" ++ String.join (s.data.map jsonEscChar) ++ "\""

/-- Python string comparison: lexicographic on unicode codepoints.
Defined structurally so it reduces in the kernel (Lean's own `String`
order is the same relation but is implemented irreducibly). -/
def charListLe : List Char → List Char → Bool
  | [], _ => true
  | _ :: _, [] => false
  | a :: as, b :: bs =>
    if a.toNat < b.toNat then true
    else if b.toNat < a.toNat then false
    else charListLe as bs

/-- Key order used by `sort_keys=True`: Python `sorted` on dict items
compares keys first, and keys are unique in a dict, so only the key
matters. -/
def keyLe (a b : String × String) : Prop := charListLe a.1.data b.1.data = true

instance : DecidableRel keyLe := fun x y => instDecidableEqBool (charListLe x.1.data y.1.data) true

/-- Sorting of dict items performed by `sort_keys=True`. -/
def mdSort (md : List (String × String)) : List (String × String) :=
  List.insertionSort keyLe md

/-- `json.dumps(metadata, sort_keys=True, ensure_ascii=False)` where
`metadata` is the dict represented by the association list `md`
(unique keys, insertion order preserved). -/
def jsonDumpsSorted (md : List (String × String)) : String :=
  "\x7b" ++ String.intercalate ", "
    ((mdSort md).map (fun p => jsonQuote p.1 ++ ": " ++ jsonQuote p.2)) ++ "\x7d"

/-! ## Documents and stable ids (`save_to_vector_db.py`). -/

/-- LangChain `Document`: page content plus a string-valued metadata dict,
modelled as an association list in insertion order. -/
structure Doc where
  page_content : String
  metadata : List (String × String)
deriving DecidableEq

/-- Python `dict.get(k)` on the metadata association list. -/
def getmd (k : String) : List (String × String) → Option String
  | [] => none
  | p :: t => if p.1 = k then some p.2 else getmd k t

/-- `_stable_id` from `save_to_vector_db.py`: the MD5 hex digest of
`page_content + "||" + json.dumps(metadata, sort_keys=True,
ensure_ascii=False)` encoded as UTF-8. -/
def _stable_id (d : Doc) : String :=
  md5Hex (utf8Str (d.page_content ++ "||" ++ jsonDumpsSorted d.metadata))

/-! ## The chunk extractor (`app/chunking.py`).

The filesystem is modelled as a list of `FileEntry` records in the
traversal order the OS would produce.  `read` is the result of
`Path.read_text` (`none` = the call raises, e.g. undecodable bytes);
`pyParse` is the result of `ast.parse` on a successfully read `.py` file
(`none` = `SyntaxError`); `nbParse` is the result of `nbformat.read`
(`none` = read/parse failure).  `ast` and `nbformat` are external
collaborators, so their outputs are inputs of the model. -/

/-- Result of `ast.parse` for one top-level `FunctionDef`/`ClassDef`
node (other statement kinds are `PyKind.other`). -/
inductive PyKind where
  | functiondef
  | classdef
  | other
deriving DecidableEq

def kindName : PyKind → String
  | PyKind.functiondef => "functiondef"
  | PyKind.classdef => "classdef"
  | PyKind.other => "other"

structure PyNode where
  kind : PyKind
  pname : String
  srcSeg : Option String
  doc : Option String
  lineno : Nat
  endLineno : Nat
deriving DecidableEq

structure PyModule where
  doc : Option String
  body : List PyNode
deriving DecidableEq

structure NbCell where
  cellType : String
  source : String
deriving DecidableEq

structure FileEntry where
  dirs : List String
  fname : String
  read : Option String
  pyParse : Option PyModule
  nbParse : Option (List NbCell)
deriving DecidableEq

def low_value_exts : List String := [
  ".css", ".min.js", ".json", ".svg", ".csv", ".xlsx", ".xls",
  ".log", ".lock", ".pyc", ".pyo", ".pyd", ".class", ".jar", ".war",
  ".o", ".obj", ".dll", ".exe", ".so", ".a", ".db", ".sqlite", ".sqlite3",
  ".bak", ".tmp", ".ico", ".icns", ".pdf", ".docx", ".pptx",
  ".7z", ".zip", ".tar", ".gz", ".rar", ".iml"]

def low_value_files : List String := [
  "readme.md", "license", ".gitignore", ".gitattributes", "post-update.sample",
  "fsmonitor-watchman.sample", "pre-commit", "pre-push", "commit-msg",
  "tags", "head", "config", "description", "index", ".editorconfig",
  ".prettierrc", ".eslintrc", ".gitmodules", ".mailmap", ".clang-format",
  "pipfile.lock", "yarn.lock", "package-lock.json", ".env", ".env.example", ".npmrc",
  "update.sample"]

def low_value_dirs : List String := [
  ".git", ".vscode", ".idea", "__pycache__",
  "node_modules", "dist", "build", ".pytest_cache"]

/-- `is_low_value_file` from `chunking.py`, on the full path given as its
segment list (`Path(filepath).parts`). -/
def is_low_value_file (parts : List String) : Bool :=
  let name := (parts.getLast?).getD ""
  low_value_exts.contains (strToLower (sfxOf name)) ||
  low_value_files.contains (strToLower name) ||
  low_value_dirs.any (fun d => parts.contains d) ||
  strHas (strToLower (pathStr parts)) "mock"

def filePath (root : List String) (f : FileEntry) : String :=
  pathStr (root ++ f.dirs ++ [f.fname])

def fileParts (root : List String) (f : FileEntry) : List String :=
  root ++ f.dirs ++ [f.fname]

/-- `"1-" + str(content.count(chr(10)) + 1)`. -/
def mkLines (content : String) : String := "1-" ++ toString (countNL content + 1)

def findRoot (fs : List FileEntry) (n : String) : Option FileEntry :=
  fs.find? (fun f => f.dirs.isEmpty && f.fname == n)

/-- The first existing file among `README.md`, `README.rst`, `README.txt`
at the repository root, in that priority order. -/
def findReadme (fs : List FileEntry) : Option (String × FileEntry) :=
  match findRoot fs "README.md" with
  | some f => some ("README.md", f)
  | none =>
    match findRoot fs "README.rst" with
    | some f => some ("README.rst", f)
    | none =>
      match findRoot fs "README.txt" with
      | some f => some ("README.txt", f)
      | none => none

/-- Pass 1 of `extract_all_chunks` (lines 197-213): the root README.
`read_text` here is NOT wrapped in try/except, so a read failure
propagates (`Except.error`). -/
def readmePass (root : List String) (fs : List FileEntry) : Except Unit (List Doc) :=
  match findReadme fs with
  | none => Except.ok []
  | some (n, f) =>
    match f.read with
    | none => Except.error ()
    | some raw =>
      let content := pyStrip raw
      if 50 < content.length ∧ content.length < 5000 then
        Except.ok [⟨content,
          [("source", pathStr (root ++ [n])), ("file_ext", "text"),
           ("type", "readme"), ("name", n), ("lines", mkLines content)]⟩]
      else Except.ok []

/-- One file of pass 2 (lines 215-238): whole-file text chunk for
`*.md`/`*.rst`/`*.txt`, skipping any `readme.md` (case-insensitive);
read failures are caught and skipped. -/
def emitText (root : List String) (f : FileEntry) : List Doc :=
  if strToLower f.fname = "readme.md" then []
  else
    match f.read with
    | none => []
    | some raw =>
      let content := pyStrip raw
      if 50 < content.length ∧ content.length < 5000 then
        let ext0 := String.mk ((strToLower (sfxOf f.fname)).data.dropWhile (fun c => c = '.'))
        let ext := if ext0.isEmpty then "txt" else ext0
        [⟨content,
          [("source", filePath root f), ("file_ext", ext), ("type", ext),
           ("name", f.fname), ("lines", mkLines content)]⟩]
      else []

/-- Pass 2: `chain(rglob("*.md"), rglob("*.rst"), rglob("*.txt"))`. -/
def textPass (root : List String) (fs : List FileEntry) : List Doc :=
  ((fs.filter (fun f => ".md".data.isSuffixOf f.fname.data)) ++
   (fs.filter (fun f => ".rst".data.isSuffixOf f.fname.data)) ++
   (fs.filter (fun f => ".txt".data.isSuffixOf f.fname.data))).flatMap (emitText root)

/-- Chunks emitted for one top-level `FunctionDef`/`ClassDef`: the source
segment (when `ast.get_source_segment` returns one) and the docstring,
each under the strict bound. -/
def emitPyNode (root : List String) (f : FileEntry) (node : PyNode) : List Doc :=
  (match node.srcSeg with
   | some c =>
     if 50 < c.length ∧ c.length < 5000 then
       [⟨c, [("source", filePath root f), ("file_ext", "code"),
             ("type", kindName node.kind), ("name", node.pname),
             ("lines", toString node.lineno ++ "-" ++ toString node.endLineno)]⟩]
     else []
   | none => []) ++
  (match node.doc with
   | some d =>
     if 50 < d.length ∧ d.length < 5000 then
       [⟨d, [("source", filePath root f), ("file_ext", "code"),
             ("type", kindName node.kind ++ "_docstring"), ("name", node.pname),
             ("lines", toString node.lineno ++ "-" ++ toString node.endLineno)]⟩]
     else []
   | none => [])

/-- Pass 3a: a parsed `.py` file (module docstring, then the top-level
defs; `isinstance(node, (FunctionDef, ClassDef))` keeps only those two
kinds). -/
def emitPy (root : List String) (f : FileEntry) (raw : String) (m : PyModule) : List Doc :=
  (match m.doc with
   | some d =>
     if 50 < d.length ∧ d.length < 5000 then
       [⟨d, [("source", filePath root f), ("file_ext", "code"),
             ("type", "module_docstring"), ("name", f.fname),
             ("lines", mkLines raw)]⟩]
     else []
   | none => []) ++
  (m.body.flatMap (fun node =>
    if node.kind = PyKind.functiondef ∨ node.kind = PyKind.classdef then
      emitPyNode root f node
    else []))

/-- Pass 3b: one notebook cell. -/
def emitCell (root : List String) (f : FileEntry) (i : Nat) (cell : NbCell) : List Doc :=
  if cell.cellType = "markdown" ∨ cell.cellType = "code" then
    let content := pyStrip cell.source
    if 50 < content.length ∧ content.length < 5000 then
      [⟨content,
        [("source", filePath root f), ("file_ext", "code"),
         ("type", cell.cellType ++ "_cell"),
         ("name", f.fname ++ " - cell " ++ toString i),
         ("lines", "cell_" ++ toString i)]⟩]
    else []
  else []

/-- One file of pass 3 (lines 240-328): dispatch on the lower-cased
suffix; every failure inside the loop body is caught and skipped. -/
def emitMisc (root : List String) (f : FileEntry) : List Doc :=
  let sfx := strToLower (sfxOf f.fname)
  if sfx = ".py" then
    match f.read with
    | none => []
    | some raw =>
      match f.pyParse with
      | none => []
      | some m => emitPy root f raw m
  else if sfx = ".ipynb" then
    match f.nbParse with
    | none => []
    | some cells => (cells.enum).flatMap (fun p => emitCell root f p.1 p.2)
  else
    match f.read with
    | none => []
    | some raw =>
      if 50 < raw.length ∧ raw.length < 5000 then
        [⟨raw, [("source", filePath root f), ("file_ext", "code"),
                ("type", sfx), ("name", f.fname), ("lines", mkLines raw)]⟩]
      else []

/-- Pass 3: `rglob("*.*")` (name contains a dot) minus low-value paths. -/
def miscPass (root : List String) (fs : List FileEntry) : List Doc :=
  (fs.filter (fun f =>
    f.fname.data.contains '.' && !(is_low_value_file (fileParts root f)))).flatMap
      (emitMisc root)

/-- `extract_all_chunks` from `chunking.py`: README pass (uncaught read),
then text pass, then code/misc pass. -/
def extract_all_chunks (root : List String) (fs : List FileEntry) : Except Unit (List Doc) :=
  match readmePass root fs with
  | Except.error e => Except.error e
  | Except.ok c1 => Except.ok (c1 ++ textPass root fs ++ miscPass root fs)

/-! ## TEXT/CODE classification and index construction
(`save_to_vector_db.py`). -/

/-- `_norm_ext`: lower-case and strip leading dots. -/
def _norm_ext (ext : String) : String :=
  String.mk ((strToLower ext).data.dropWhile (fun c => c = '.'))

/-- `_guess_ext`: `metadata.file_ext`, falling back to the `source` path
suffix when it is empty or `"code"`, then to the `name` suffix. -/
def _guess_ext (d : Doc) : String :=
  let e0 := _norm_ext ((getmd "file_ext" d.metadata).getD "")
  let src := (getmd "source" d.metadata).getD ""
  let e1 :=
    if (e0 = "" ∨ e0 = "code") ∧ src ≠ "" then _norm_ext (sfxOf (baseNameOf src))
    else e0
  let nm := (getmd "name" d.metadata).getD ""
  if e1 = "" ∧ nm ≠ "" then _norm_ext (sfxOf (baseNameOf nm)) else e1

def TEXT_EXTS : List String := ["md", "rst", "txt"]
def CONFIG_EXTS : List String := ["yml", "yaml", "toml", "ini", "cfg"]
def NB_EXTS : List String := ["ipynb"]
def CODE_EXTS : List String := ["py", "js", "ts", "java", "go", "cpp", "c", "cs", "rb", "php"]

/-- `_is_text`: type-first rules, then extension fallback, then filename
special cases, defaulting to CODE (`false`). -/
def _is_text (d : Doc) : Bool :=
  let t := strToLower ((getmd "type" d.metadata).getD "")
  let ext := _guess_ext d
  if strHas t "docstring" ||
     (t = "readme" || t = "markdown" || t = "inline_comment" ||
      t = "markdown_cell" || t = "module_docstring") then true
  else if t = "functiondef" || t = "asyncfunctiondef" || t = "classdef" ||
          t = "code" || t = "ipynb_cell" then false
  else if TEXT_EXTS.contains ext then true
  else if (CODE_EXTS ++ CONFIG_EXTS ++ NB_EXTS).contains ext then false
  else
    let nm := strToLower ((getmd "name" d.metadata).getD "")
    if nm = "readme.md" || nm = "readme.rst" || nm = "readme.txt" ||
       nm = "license" || nm = "license.txt" then true
    else if nm = "requirements.txt" then true
    else false

/-- The size filter applied once in `save_to_faiss_split_by_ext`
(`d and d.page_content and min_chars <= len <= max_chars`). -/
def docsFilter (chunks : List Doc) (minc maxc : Nat) : List Doc :=
  chunks.filter (fun d =>
    !d.page_content.isEmpty &&
    (decide (minc ≤ d.page_content.length) && decide (d.page_content.length ≤ maxc)))

/-- Stable ids handed to the TEXT index build (defaults
`min_chars = 30`, `max_chars = 10000`). -/
def textIds (chunks : List Doc) : List String :=
  ((docsFilter chunks 30 10000).filter (fun d => _is_text d)).map _stable_id

/-- Stable ids handed to the CODE index build. -/
def codeIds (chunks : List Doc) : List String :=
  ((docsFilter chunks 30 10000).filter (fun d => !_is_text d)).map _stable_id

/-! ## The context assembler (`_retrieve` in `app/graph.py`).

FAISS loading and `max_marginal_relevance_search` are the external
index-search service; their results (or failures) are inputs.  The
candidate documents carry the same `Doc` shape the indexes store. -/

def PER_FILE_CAP : Nat := 2
def SNIPPET_CHARS : Nat := 700
def MAX_CONTEXT_CHARS : Nat := 6000

def _CODE_NAME_BOOST : List String :=
  ["service", "api", "client", "handler", "router", "controller", "model", "view", "util", "utils"]

/-- `_score_code_hit`: +1 `.py` source, +2 component-name token in the
basename (case-insensitive regex search), +3 documentation-like type. -/
def _score_code_hit (d : Doc) : Nat :=
  let src := baseNameOf ((getmd "source" d.metadata).getD "")
  let t := strToLower ((getmd "type" d.metadata).getD "")
  (if ".py".data.isSuffixOf src.data then 1 else 0) +
  (if _CODE_NAME_BOOST.any (fun tk => strHas (strToLower src) tk) then 2 else 0) +
  (if t = "module_docstring" ∨ t = "functiondef_docstring" ∨ t = "classdef_docstring" then 3 else 0)

/-- `c_hits.sort(key=_score_code_hit, reverse=True)`: stable descending
sort by score. -/
def sortScoreDesc (l : List Doc) : List Doc :=
  List.insertionSort (fun a b => _score_code_hit b ≤ _score_code_hit a) l

/-- `cap_for` inside `_retrieve`. -/
def cap_for (src : String) : Nat :=
  if src = "README.md" then 1
  else if src = "requirements.txt" then 1
  else if ".py".data.isSuffixOf src.data then 3
  else PER_FILE_CAP

/-- Mutable state of the `try_add` closure: accepted entries, per-file
counts, seen `(src, lines)` keys, running character total. -/
structure RetSt where
  parts : List String
  per_file : List (String × Nat)
  seen : List (String × String)
  total : Nat
deriving DecidableEq

def pfGet (pf : List (String × Nat)) (k : String) : Nat :=
  match pf with
  | [] => 0
  | p :: t => if p.1 = k then p.2 else pfGet t k

def pfInc (pf : List (String × Nat)) (k : String) : List (String × Nat) :=
  match pf with
  | [] => [(k, 1)]
  | p :: t => if p.1 = k then (p.1, p.2 + 1) :: t else p :: pfInc t k

/-- `try_add(d)`: dedup on `(basename, lines)`, per-file cap, snippet
truncation to 700 chars, and the character-budget check
`total + len(entry) > MAX_CONTEXT_CHARS` (which does not count the
`"\n\n"` separators added by the final join). -/
def try_add (st : RetSt) (d : Doc) : RetSt :=
  let src := baseNameOf ((getmd "source" d.metadata).getD "")
  let loc := (getmd "lines" d.metadata).getD ""
  if (src, loc) ∈ st.seen ∨ cap_for src ≤ pfGet st.per_file src then st
  else
    let snippet := String.mk (d.page_content.data.take SNIPPET_CHARS)
    let entry := "[the " ++ src ++ ":" ++ loc ++ "] " ++ snippet
    if MAX_CONTEXT_CHARS < st.total + entry.length then st
    else ⟨st.parts ++ [entry], pfInc st.per_file src, (src, loc) :: st.seen,
          st.total + entry.length⟩

/-- The entry list accepted by `_retrieve`: code hits first (sorted by
score, only when `route == "both"`), then text hits. -/
def retParts (route : String) (codeHits textHits : List Doc) : List String :=
  let st0 : RetSt := ⟨[], [], [], 0⟩
  let st1 := if route = "both" then (sortScoreDesc codeHits).foldl try_add st0 else st0
  (textHits.foldl try_add st1).parts

/-- Python `"\n\n".join(parts)`. -/
def joinNN : List String → String
  | [] => ""
  | [a] => a
  | a :: b :: t => a ++ "\n\n" ++ joinNN (b :: t)

/-- The string `_retrieve` returns once the index searches have produced
their hit lists. -/
def _retrieve_pure (route : String) (codeHits textHits : List Doc) : String :=
  joinNN (retParts route codeHits textHits)

/-- `_retrieve` with the fallible index backend made explicit:
`textRes` is the combined outcome of loading and searching the TEXT
index (its failure propagates — lines 154 and 169 are outside any
try/except); `codeRes` is the outcome of loading+searching the CODE
index, attempted only for `route == "both"` and caught by the
`try/except: pass` at lines 158-166. -/
def _retrieve (route : String) (codeRes : Except Unit (List Doc))
    (textRes : Except Unit (List Doc)) : Except Unit String :=
  match textRes with
  | Except.error e => Except.error e
  | Except.ok th =>
    let ch := match codeRes with
      | Except.ok l => l
      | Except.error _ => []
    Except.ok (_retrieve_pure route ch th)

/-! ## The section-generation state machine (`app/graph.py`).

LangGraph state keys are optional; `none` models an absent key.  The
LLM calls inside `n_write`, `n_judge` and `n_revise` are external
services, so their text outputs are inputs of the step relation.  The
`_judge` value is a JSON string in the source; here it is the parse
outcome: `JRaw.bad` stands for any output `json.loads` rejects, and
`JRaw.good v` for a JSON object of the verdict shape `v` (absent keys
are `none`). -/

structure SectionSpec where
  name : String
  query : String
  route : String
  k_text : Nat
  k_code : Nat
  guidance : String
  additional_context : String
deriving DecidableEq

/-- The judge-verdict JSON object; every key is optional because
`decide_pass_or_revise` reads them all with `.get` defaults.  `score`
is a `Rat`: the JSON numbers compared here (`0.75`, `0.9`, `0.0`, …)
are exact in both `float` and `Rat`, and the comparison is the same. -/
structure Verdict where
  factual : Option Bool
  cites_ok : Option Bool
  hallucinated : Option Bool
  score : Option Rat
  notes : Option String
  unsupported_claims : Option (List String)
  missing_but_expected : Option (List String)
deriving DecidableEq

inductive JRaw where
  | bad : JRaw
  | good : Verdict → JRaw
deriving DecidableEq

/-- The threshold `0.75` as an exact rational (given in normal form so
that comparisons evaluate in the kernel; the value is `3/4`, see the
sanity check below). -/
def rat075 : Rat := Rat.mk' 3 4 (by decide) (by decide)

/-- The score `0.9` appearing in the spec scenarios, as `9/10`. -/
def rat09 : Rat := Rat.mk' 9 10 (by decide) (by decide)

/-- The deterministic failing verdict substituted by `n_judge` when the
grader's output is not valid JSON. -/
def failingVerdict : Verdict :=
  ⟨some false, some false, some true, some 0,
   some "Judge did not return JSON", some ["Non-JSON judge output"], some []⟩

/-- `State` from `graph.py` (TypedDict, total=False). -/
structure St where
  spec : SectionSpec
  context : Option String
  draft : Option String
  out_path : Option String
  review_mode : Option String
  judge : Option JRaw
  human_notes : Option String
  retries : Option Int
  max_retries : Option Int
deriving DecidableEq

/-- Truthiness of `state.get("_human_notes")`: present and non-empty. -/
def humanNotesTruthy (st : St) : Bool :=
  match st.human_notes with
  | some s => !s.isEmpty
  | none => false

/-- `json.loads(state.get("_judge","") or "\x7b\x7d")`: an absent or empty
`_judge` parses as the empty object (all keys absent); a malformed one
raises. -/
def verdictOfJudge (st : St) : Option Verdict :=
  match st.judge with
  | none => some ⟨none, none, none, none, none, none, none⟩
  | some JRaw.bad => none
  | some (JRaw.good v) => v

/-- `decide_pass_or_revise` (graph.py lines 335-362).  `0.75` is exact
in binary floating point, so the `Rat` comparison agrees with the
Python `float` one. -/
def decide_pass_or_revise (st : St) : String :=
  if humanNotesTruthy st then "revise"
  else
    match verdictOfJudge st with
    | none => "revise"
    | some data =>
      let score : Rat := data.score.getD 0
      let bad := (!data.factual.getD true) || data.hallucinated.getD false ||
                 (!data.cites_ok.getD true)
      if bad = false ∧ rat075 ≤ score then "save"
      else if st.retries.getD 0 < st.max_retries.getD 2 then "revise"
      else "save"

/-- The partial state update returned by `n_retrieve` (only `context`). -/
def n_retrieve_upd (st : St) (ctx : String) : St := { st with context := some ctx }

/-- The partial state update returned by `n_write` (only `draft`). -/
def n_write_upd (st : St) (d : String) : St := { st with draft := some d }

/-- The verdict `_judge` holds after `n_judge`: the grader's own object
when it parsed, the deterministic failing verdict otherwise. -/
def parsedOf (raw : JRaw) : Verdict :=
  match raw with
  | JRaw.bad => failingVerdict
  | JRaw.good v => v

/-- The partial state update returned by `n_judge` (only `_judge`): a
non-JSON grader output is replaced by the deterministic failing
verdict, so `_judge` always parses afterwards. -/
def n_judge_upd (st : St) (raw : JRaw) : St :=
  { st with judge := some (JRaw.good (parsedOf raw)) }

/-- The partial state update returned by `n_revise` (graph.py line 333):
only `draft` and `retries`; `context`, `spec` and `_human_notes` are
untouched. -/
def n_revise_upd (st : St) (newDraft : String) : St :=
  { st with draft := some newDraft, retries := some (st.retries.getD 0 + 1) }

/-- `spec.name.lower().replace("&","and").replace(" ","_")`. -/
def slugName (s : String) : String :=
  String.mk ((strToLower s).data.flatMap (fun c =>
    if c = '&' then "and".data else if c = ' ' then ['_'] else [c]))

/-- The partial state update returned by `n_save` (only `out_path`). -/
def n_save_upd (st : St) : St :=
  { st with out_path := some ("docs/" ++ slugName st.spec.name ++ ".md") }

/-- `route_after_write`: `(state.get("review_mode") or "llm").lower()`. -/
def route_after_write (st : St) : String :=
  let mode := strToLower (match st.review_mode with
    | some s => if s.isEmpty then "llm" else s
    | none => "llm")
  if mode = "none" then "save" else "judge"

/-- The compiled graph's nodes; `finis` is LangGraph's END. -/
inductive GNode where
  | retrieve
  | write
  | judge
  | revise
  | save
  | finis
deriving DecidableEq

/-- Target of a conditional edge keyed by the router's return string
(`build_graph` maps "judge"/"save"/"revise" to the same-named nodes). -/
def nodeOfName (s : String) : GNode :=
  if s = "revise" then GNode.revise
  else if s = "judge" then GNode.judge
  else if s = "save" then GNode.save
  else GNode.finis

/-- One transition of the compiled graph from `build_graph` (lines
373-392): run the node on the current state, then follow the fixed or
conditional edge.  LLM outputs (`d`, `raw`, `ctx`) are arbitrary. -/
inductive GStep : GNode × St → GNode × St → Prop where
  | retrieveS (st : St) (ctx : String) :
      GStep (GNode.retrieve, st) (GNode.write, n_retrieve_upd st ctx)
  | writeS (st : St) (d : String) :
      GStep (GNode.write, st)
        (nodeOfName (route_after_write (n_write_upd st d)), n_write_upd st d)
  | judgeS (st : St) (raw : JRaw) :
      GStep (GNode.judge, st)
        (nodeOfName (decide_pass_or_revise (n_judge_upd st raw)), n_judge_upd st raw)
  | reviseS (st : St) (d : String) :
      GStep (GNode.revise, st) (GNode.judge, n_revise_upd st d)
  | saveS (st : St) :
      GStep (GNode.save, st) (GNode.finis, n_save_upd st)

/-- An initial invocation state, as built by `app.invoke({"spec": ...})`
in `main.py` (optionally with a `review_mode`): every other key is
absent. -/
def InitSt (st : St) : Prop :=
  st.context = none ∧ st.draft = none ∧ st.out_path = none ∧ st.judge = none ∧
  st.human_notes = none ∧ st.retries = none ∧ st.max_retries = none

/-- States reachable by the compiled graph from an initial invocation. -/
inductive GReach : GNode × St → Prop where
  | init (st : St) : InitSt st → GReach (GNode.retrieve, st)
  | step {a b : GNode × St} : GReach a → GStep a b → GReach b

/-! ## Derived predicates and concrete instances used by the theorems. -/

/-- Sum of the lengths of the accepted entries (the quantity the
`total` counter of `try_add` tracks). -/
def sumLens (l : List String) : Nat := (l.map String.length).sum

/-- The passing condition of the quality gate:
`factual ∧ ¬hallucinated ∧ cites_ok ∧ score ≥ 0.75` with the `.get`
defaults of `decide_pass_or_revise`. -/
def goodV (v : Verdict) : Prop :=
  v.factual.getD true = true ∧ v.hallucinated.getD false = false ∧
  v.cites_ok.getD true = true ∧ rat075 ≤ v.score.getD 0

instance (v : Verdict) : Decidable (goodV v) := by unfold goodV; infer_instance

/-- Equivalence of documents as Python values: equal `page_content` and
equal metadata dicts (the association lists are permutations with
unique keys). -/
def DocEquiv (d1 d2 : Doc) : Prop :=
  d1.page_content = d2.page_content ∧ d1.metadata.Perm d2.metadata ∧
  (d1.metadata.map Prod.fst).Nodup

/-- The chunk pass 2 emits for a lower-case prose file with bare
extension `e` (one of `md`, `rst`, `txt`): stripped content,
`file_ext = type = e`. -/
def textDocOf (root : List String) (f : FileEntry) (s e : String) : Doc :=
  ⟨pyStrip s, [("source", filePath root f), ("file_ext", e), ("type", e),
               ("name", f.fname), ("lines", mkLines (pyStrip s))]⟩

/-- The chunk pass 3 emits for the same prose file (raw content,
`file_ext = "code"`, dotted lower-case suffix as type). -/
def codeDocOf (root : List String) (f : FileEntry) (s e : String) : Doc :=
  ⟨s, [("source", filePath root f), ("file_ext", "code"), ("type", "." ++ e),
       ("name", f.fname), ("lines", mkLines s)]⟩

/-- The chunk the README pass emits. -/
def mkReadmeDoc (root : List String) (raw : String) : Doc :=
  ⟨pyStrip raw, [("source", pathStr (root ++ ["README.md"])), ("file_ext", "text"),
                 ("type", "readme"), ("name", "README.md"),
                 ("lines", mkLines (pyStrip raw))]⟩

def chars50 : String := String.mk (List.replicate 50 'a')
def chars51 : String := String.mk (List.replicate 51 'a')
def fsLen50 : List FileEntry := [⟨[], "README.md", some chars50, none, none⟩]
def fsLen51 : List FileEntry := [⟨[], "README.md", some chars51, none, none⟩]
def fsBadReadme : List FileEntry := [⟨[], "README.md", none, none, none⟩]
def fsBadNotes : List FileEntry := [⟨[], "notes.md", none, none, none⟩]
def fsBadPy : List FileEntry := [⟨[], "badparse.py", some "def f(:", none, none⟩]

def snippet652 : String := String.mk (List.replicate 652 'a')

/-- Nine retrieval candidates whose accepted entries are each 666
characters long (`"[the f1i.x:1] "` is 14 characters, the snippet 652),
so all nine pass the budget check with `total = 5994 ≤ 6000`, while the
`"\n\n"`-joined result has `5994 + 2 * 8 = 6010` characters. -/
def retDemoDocs : List Doc :=
  (List.range 9).map (fun i =>
    ⟨snippet652, [("source", "f" ++ toString (i + 10) ++ ".x"), ("lines", "1")]⟩)

/-- The entry `try_add` builds for the `i`-th demo candidate. -/
def demoEntry (i : Nat) : String :=
  "[the f" ++ toString (i + 10) ++ ".x:1] " ++ snippet652

/-- The auxiliary invariant of the compiled graph: human notes are never
written (the interactive review node is not wired into `build_graph`),
`max_retries` is never written, `_judge` always parses after `n_judge`,
and the retry counter stays within `0 ≤ retries ≤ 2` (the default
`max_retries`), strictly below it on entry to REVISE. -/
def GInv : GNode × St → Prop := fun p =>
  p.2.human_notes = none ∧ p.2.max_retries = none ∧
  0 ≤ p.2.retries.getD 0 ∧ p.2.retries.getD 0 ≤ 2 ∧
  (p.1 = GNode.revise → p.2.retries.getD 0 < 2) ∧
  p.2.judge ≠ some JRaw.bad

def spec0 : SectionSpec := ⟨"Objective & Scope", "goals", "both", 12, 15, "", ""⟩

/-- Scenario 4's verdict literal: only `factual:false` and `score:0.9`. -/
def verdictC3 : Verdict := ⟨some false, none, none, some rat09, none, none, none⟩

/-- A fully passing verdict (Scenario 3 shape). -/
def verdictPass : Verdict :=
  ⟨some true, some true, some false, some rat09, none, none, none⟩

def stScenario4 : St :=
  ⟨spec0, none, none, none, none, some (JRaw.good verdictC3), none, some 0, some 2⟩

def stScenario3 : St :=
  ⟨spec0, none, none, none, none, some (JRaw.good verdictPass), none, some 0, some 2⟩

/-- A state at the routing step with human notes present and a verdict
that would otherwise pass. -/
def stHuman : St :=
  ⟨spec0, some "ctx", some "draft", none, none, some (JRaw.good verdictPass),
   some "Please fix the tone", some 0, some 2⟩

def c6s0 : St := ⟨spec0, none, none, none, none, none, none, none, none⟩
def c6s1 : St := n_retrieve_upd c6s0 "ctx"
def c6s2 : St := n_write_upd c6s1 "draft"
def c6s3 : St := n_judge_upd c6s2 JRaw.bad
def c6s4 : St := n_revise_upd c6s3 "draft2"

def mdContent : String := String.mk (List.replicate 60 'a')
def fGuide : FileEntry := ⟨["docs"], "guide.md", some mdContent, none, none⟩

def docMeta1 : Doc := ⟨"sample page content", [("source", "a.py"), ("type", "functiondef")]⟩
def docMeta2 : Doc := ⟨"sample page content", [("type", "functiondef"), ("source", "a.py")]⟩

/-! ## Helper lemmas -/

/-! Sanity checks: RFC 1321 test vectors for the MD5 implementation, the
CPython JSON rendering, and the decimal values of the rational
constants. -/

example : md5Hex (utf8Str "") = "d41d8cd98f00b204e9800998ecf8427e" := by decide
example : md5Hex (utf8Str "abc") = "900150983cd24fb0d6963f7d28e17f72" := by decide
example : jsonDumpsSorted [] = "\x7b\x7d" := by decide
example : jsonDumpsSorted [("b", "2"), ("a", "x\"y")] =
    "\x7b\"a\": \"x\\\"y\", \"b\": \"2\"\x7d" := by decide
example : rat075 = (3 : Rat)/4 := by apply Rat.ext <;> norm_num [rat075]
example : rat09 = (9 : Rat)/10 := by apply Rat.ext <;> norm_num [rat09]

theorem verdictOfJudge_good {st : St} {v : Verdict}
    (hj : st.judge = some (JRaw.good v)) : verdictOfJudge st = some v := by
  simp [verdictOfJudge, hj]

/-- With no (truthy) human notes and a parsed verdict, the router is the
two-level conditional of the spec. -/
theorem decide_pass_eq (st : St) (v : Verdict)
    (hn : humanNotesTruthy st = false)
    (hj : st.judge = some (JRaw.good v)) :
    decide_pass_or_revise st =
      if goodV v then "save"
      else if st.retries.getD 0 < st.max_retries.getD 2 then "revise"
      else "save" := by
  have hiff : ((!v.factual.getD true || v.hallucinated.getD false ||
      !v.cites_ok.getD true) = false ∧ rat075 ≤ v.score.getD 0) ↔ goodV v := by
    unfold goodV
    rw [Bool.or_eq_false_iff, Bool.or_eq_false_iff]
    simp only [Bool.not_eq_false']
    tauto
  simp only [decide_pass_or_revise, hn, Bool.false_eq_true, if_false,
    verdictOfJudge_good hj]
  rw [if_congr hiff rfl rfl]

theorem nodeOfName_ne_retrieve (s : String) : nodeOfName s ≠ GNode.retrieve := by
  unfold nodeOfName
  split
  · simp
  · split
    · simp
    · split <;> simp

theorem nodeOfName_eq_revise {s : String} (h : nodeOfName s = GNode.revise) :
    s = "revise" := by
  unfold nodeOfName at h
  split at h
  · assumption
  · split at h
    · simp at h
    · split at h <;> simp at h

theorem route_after_write_cases (st : St) :
    route_after_write st = "save" ∨ route_after_write st = "judge" := by
  simp only [route_after_write]
  split
  · exact Or.inl rfl
  · exact Or.inr rfl

/-- The inductive invariant holds at every reachable configuration. -/
theorem reach_inv {p : GNode × St} (h : GReach p) : GInv p := by
  induction h with
  | init st hinit =>
    obtain ⟨-, -, -, hj, hhn, hrt, hm⟩ := hinit
    refine ⟨hhn, hm, ?_, ?_, ?_, ?_⟩
    · simp [hrt]
    · simp [hrt]
    · intro hc; exact absurd hc (by simp)
    · simp [hj]
  | step hr hs ih =>
    obtain ⟨ihn, ihm, ih0, ih2, ihrev, ihj⟩ := ih
    cases hs with
    | retrieveS st ctx =>
      refine ⟨?_, ?_, ?_, ?_, ?_, ?_⟩
      · simpa [n_retrieve_upd] using ihn
      · simpa [n_retrieve_upd] using ihm
      · simpa [n_retrieve_upd] using ih0
      · simpa [n_retrieve_upd] using ih2
      · intro hc; exact absurd hc (by simp)
      · simpa [n_retrieve_upd] using ihj
    | writeS st d =>
      refine ⟨?_, ?_, ?_, ?_, ?_, ?_⟩
      · simpa [n_write_upd] using ihn
      · simpa [n_write_upd] using ihm
      · simpa [n_write_upd] using ih0
      · simpa [n_write_upd] using ih2
      · intro hc
        exfalso
        rcases route_after_write_cases (n_write_upd st d) with hcase | hcase <;>
          (simp only [hcase] at hc; simp [nodeOfName] at hc)
      · simpa [n_write_upd] using ihj
    | judgeS st raw =>
      have hn' : humanNotesTruthy (n_judge_upd st raw) = false := by
        simp only [n_judge_upd] at *
        simp [humanNotesTruthy, ihn]
      have hj' : (n_judge_upd st raw).judge = some (JRaw.good (parsedOf raw)) := rfl
      refine ⟨?_, ?_, ?_, ?_, ?_, ?_⟩
      · simpa [n_judge_upd] using ihn
      · simpa [n_judge_upd] using ihm
      · simpa [n_judge_upd] using ih0
      · simpa [n_judge_upd] using ih2
      · intro hc
        have hrev : decide_pass_or_revise (n_judge_upd st raw) = "revise" :=
          nodeOfName_eq_revise hc
        rw [decide_pass_eq (n_judge_upd st raw) _ hn' hj'] at hrev
        split at hrev
        · simp at hrev
        · split at hrev
          · rename_i hlt
            have hm' : (n_judge_upd st raw).max_retries = none := by
              simpa [n_judge_upd] using ihm
            rw [hm'] at hlt
            simpa [n_judge_upd] using hlt
          · simp at hrev
      · simp [n_judge_upd]
    | reviseS st d =>
      have hlt : st.retries.getD 0 < 2 := by simpa using ihrev rfl
      have h0 : (0 : Int) ≤ st.retries.getD 0 := by simpa using ih0
      refine ⟨?_, ?_, ?_, ?_, ?_, ?_⟩
      · simpa [n_revise_upd] using ihn
      · simpa [n_revise_upd] using ihm
      · simp only [n_revise_upd]
        simp
        omega
      · simp only [n_revise_upd]
        simp
        omega
      · intro hc; exact absurd hc (by simp)
      · simpa [n_revise_upd] using ihj
    | saveS st =>
      refine ⟨?_, ?_, ?_, ?_, ?_, ?_⟩
      · simpa [n_save_upd] using ihn
      · simpa [n_save_upd] using ihm
      · simpa [n_save_upd] using ih0
      · simpa [n_save_upd] using ih2
      · intro hc; exact absurd hc (by simp)
      · simpa [n_save_upd] using ihj

/-! ## Claim theorems -/

/-- C3: `decide_pass_or_revise` is a deterministic function of the
verdict, notes and counters; with no human notes and a parsed verdict it
returns SAVE iff `factual ∧ ¬hallucinated ∧ cites_ok ∧ score ≥ 0.75`,
otherwise REVISE while `retries < max_retries` and SAVE once retries are
exhausted; the verdict `{factual: false, score: 0.9}` with `retries = 0`,
`max_retries = 2` routes to REVISE, and that REVISE sets `retries = 1`. -/
theorem c3_decide_routing :
    (∀ (st : St) (v : Verdict), humanNotesTruthy st = false →
      st.judge = some (JRaw.good v) →
      ((goodV v → decide_pass_or_revise st = "save") ∧
       (¬goodV v → st.retries.getD 0 < st.max_retries.getD 2 →
          decide_pass_or_revise st = "revise") ∧
       (¬goodV v → ¬st.retries.getD 0 < st.max_retries.getD 2 →
          decide_pass_or_revise st = "save"))) ∧
    decide_pass_or_revise stScenario4 = "revise" ∧
    (∀ d : String, (n_revise_upd stScenario4 d).retries = some 1) := by
  refine ⟨?_, by decide, fun d => rfl⟩
  intro st v hn hj
  rw [decide_pass_eq st v hn hj]
  refine ⟨fun hg => by rw [if_pos hg], fun hg hlt => ?_, fun hg hlt => ?_⟩
  · rw [if_neg hg, if_pos hlt]
  · rw [if_neg hg, if_neg hlt]

/-- C3 witness: the theorem applied to Scenario 3's passing verdict
(`{factual: true, cites_ok: true, hallucinated: false, score: 0.9}`,
`retries = 0`, `max_retries = 2`) yields SAVE. -/
theorem c3_decide_routing_witness : decide_pass_or_revise stScenario3 = "save" :=
  (c3_decide_routing.1 stScenario3 verdictPass (by decide) rfl).1
    ⟨rfl, rfl, rfl, by decide⟩

/-- C7: under `route="both"` a CODE-index load/search failure is caught
and `_retrieve` still returns the text-only result, while a TEXT-index
failure propagates out of `_retrieve` for every route. -/
theorem c7_retrieval_errors :
    (∀ th : List Doc,
      _retrieve "both" (Except.error ()) (Except.ok th) =
        Except.ok (_retrieve_pure "text" [] th) ∧
      _retrieve "text" (Except.error ()) (Except.ok th) =
        Except.ok (_retrieve_pure "text" [] th)) ∧
    (∀ (route : String) (cr : Except Unit (List Doc)),
      _retrieve route cr (Except.error ()) = Except.error ()) := by
  constructor
  · intro th
    constructor
    · show Except.ok (_retrieve_pure "both" [] th) = _
      unfold _retrieve_pure retParts
      rfl
    · rfl
  · intro route cr
    rfl

/-- C6: in every state the compiled graph can reach from an invocation
state, `0 ≤ retries ≤ max_retries` (with the `.get` defaults the code
applies); in particular it holds after every REVISE transition, because
within the compiled graph REVISE is only entered through
`decide_pass_or_revise` while `retries < max_retries`, and `n_revise`
increments `retries` by exactly 1. -/
theorem c6_retries_invariant :
    ∀ (n : GNode) (st : St), GReach (n, st) →
      0 ≤ st.retries.getD 0 ∧ st.retries.getD 0 ≤ st.max_retries.getD 2 := by
  intro n st h
  obtain ⟨-, hm, h0, h2, -, -⟩ := reach_inv h
  have hm' : st.max_retries = none := by simpa using hm
  have h0' : (0 : Int) ≤ st.retries.getD 0 := by simpa using h0
  have h2' : st.retries.getD 0 ≤ 2 := by simpa using h2
  rw [hm']
  exact ⟨h0', h2'⟩

/-- C6 witness: the invariant instantiated at the concrete reachable
state reached by RETRIEVE → WRITE → JUDGE (malformed grader output) →
REVISE, where `retries = 1`. -/
theorem c6_retries_invariant_witness :
    0 ≤ c6s4.retries.getD 0 ∧ c6s4.retries.getD 0 ≤ c6s4.max_retries.getD 2 := by
  have h0 : GReach (GNode.retrieve, c6s0) :=
    GReach.init c6s0 ⟨rfl, rfl, rfl, rfl, rfl, rfl, rfl⟩
  have h1 : GReach (GNode.write, c6s1) := GReach.step h0 (GStep.retrieveS c6s0 "ctx")
  have h2 : GReach (GNode.judge, c6s2) := GReach.step h1 (GStep.writeS c6s1 "draft")
  have h3 : GReach (GNode.revise, c6s3) := GReach.step h2 (GStep.judgeS c6s2 JRaw.bad)
  have h4 : GReach (GNode.judge, c6s4) := GReach.step h3 (GStep.reviseS c6s3 "draft2")
  exact c6_retries_invariant GNode.judge c6s4 h4

/-- C8: once RETRIEVE has run, `context` is never modified again: no
transition of the compiled graph targets the RETRIEVE node, every
transition out of a non-RETRIEVE node preserves `context`, and the
REVISE update touches only `draft` and `retries` (never `context` or
`spec`). -/
theorem c8_context_frozen :
    (∀ a b : GNode × St, GStep a b → b.1 ≠ GNode.retrieve) ∧
    (∀ (n : GNode) (st : St) (n' : GNode) (st' : St),
      GStep (n, st) (n', st') → n ≠ GNode.retrieve → st'.context = st.context) ∧
    (∀ (st : St) (d : String),
      (n_revise_upd st d).context = st.context ∧
      (n_revise_upd st d).spec = st.spec ∧
      n_revise_upd st d =
        { st with draft := some d, retries := some (st.retries.getD 0 + 1) }) := by
  refine ⟨?_, ?_, fun st d => ⟨rfl, rfl, rfl⟩⟩
  · intro a b h
    cases h with
    | retrieveS st ctx => simp
    | writeS st d => simpa using nodeOfName_ne_retrieve _
    | judgeS st raw => simpa using nodeOfName_ne_retrieve _
    | reviseS st d => simp
    | saveS st => simp
  · intro n st n' st' h hne
    cases h with
    | retrieveS st ctx => exact absurd rfl hne
    | writeS st d => rfl
    | judgeS st raw => rfl
    | reviseS st d => rfl
    | saveS st => rfl

/-- C8 witness: the context-preservation part applied to the concrete
WRITE step out of the state produced by RETRIEVE. -/
theorem c8_context_frozen_witness :
    (n_write_upd c6s1 "draft").context = c6s1.context :=
  c8_context_frozen.2.1 GNode.write c6s1 _ _ (GStep.writeS c6s1 "draft") (by decide)

/-- The `total` counter equals the summed entry lengths and respects the
budget, before and after any `try_add`. -/
theorem try_add_total_inv (st : RetSt) (d : Doc)
    (h1 : st.total = sumLens st.parts) (h2 : st.total ≤ MAX_CONTEXT_CHARS) :
    (try_add st d).total = sumLens (try_add st d).parts ∧
    (try_add st d).total ≤ MAX_CONTEXT_CHARS := by
  simp only [try_add]
  split
  · exact ⟨h1, h2⟩
  · split
    · exact ⟨h1, h2⟩
    · next hc2 =>
      constructor
      · simp [sumLens, h1]
      · simp only []
        omega

theorem foldl_try_add_inv (l : List Doc) (st : RetSt)
    (h1 : st.total = sumLens st.parts) (h2 : st.total ≤ MAX_CONTEXT_CHARS) :
    (l.foldl try_add st).total = sumLens (l.foldl try_add st).parts ∧
    (l.foldl try_add st).total ≤ MAX_CONTEXT_CHARS := by
  induction l generalizing st with
  | nil => exact ⟨h1, h2⟩
  | cons d t ih =>
    obtain ⟨g1, g2⟩ := try_add_total_inv st d h1 h2
    simpa using ih (try_add st d) g1 g2

/-- The joined string exceeds the summed entry lengths by exactly the
separators, so at most `2` per entry. -/
theorem joinNN_length_le (l : List String) :
    (joinNN l).length ≤ sumLens l + 2 * l.length := by
  induction l with
  | nil => simp [joinNN, sumLens]
  | cons a t ih =>
    cases t with
    | nil => simp [joinNN, sumLens]
    | cons b t2 =>
      have hnn : ("\n\n" : String).length = 2 := rfl
      simp only [joinNN] at ih ⊢
      rw [String.length_append, String.length_append, hnn]
      simp only [sumLens, List.map_cons, List.sum_cons, List.length_cons] at ih ⊢
      omega


/-- C2 counterexample: nine text hits whose entries each have length 666
are all accepted (`total = 5994 ≤ 6000`), yet the string `_retrieve`
returns is `5994 + 2·8 = 6010 > MAX_CONTEXT_CHARS` characters long,
because the budget check does not count the `"\n\n"` separators. -/
theorem c2_counterexample :
    _retrieve "text" (Except.ok []) (Except.ok retDemoDocs) =
      Except.ok (_retrieve_pure "text" [] retDemoDocs) ∧
    MAX_CONTEXT_CHARS < (_retrieve_pure "text" [] retDemoDocs).length := by
  refine ⟨rfl, ?_⟩
  have hp : retParts "text" [] retDemoDocs =
      [demoEntry 0, demoEntry 1, demoEntry 2, demoEntry 3, demoEntry 4,
       demoEntry 5, demoEntry 6, demoEntry 7, demoEntry 8] := by decide
  have hnn : ("\n\n" : String).length = 2 := rfl
  have h0 : (demoEntry 0).length = 666 := by decide
  have h1 : (demoEntry 1).length = 666 := by decide
  have h2 : (demoEntry 2).length = 666 := by decide
  have h3 : (demoEntry 3).length = 666 := by decide
  have h4 : (demoEntry 4).length = 666 := by decide
  have h5 : (demoEntry 5).length = 666 := by decide
  have h6 : (demoEntry 6).length = 666 := by decide
  have h7 : (demoEntry 7).length = 666 := by decide
  have h8 : (demoEntry 8).length = 666 := by decide
  show MAX_CONTEXT_CHARS < (joinNN (retParts "text" [] retDemoDocs)).length
  rw [hp]
  simp only [joinNN]
  rw [String.length_append, String.length_append, String.length_append,
      String.length_append, String.length_append, String.length_append,
      String.length_append, String.length_append, String.length_append,
      String.length_append, String.length_append, String.length_append,
      String.length_append, String.length_append, String.length_append,
      String.length_append]
  rw [hnn, h0, h1, h2, h3, h4, h5, h6, h7, h8]
  norm_num [MAX_CONTEXT_CHARS]

/-- C2 amended: the *sum of the accepted entries' lengths* never exceeds
`MAX_CONTEXT_CHARS` (entries that would push it past the budget are
skipped, not truncated), and the string `_retrieve` returns — the
entries joined with blank lines — exceeds the budget by at most the two
separator characters per entry. -/
theorem c2_budget_bound (route : String) (ch th : List Doc) :
    sumLens (retParts route ch th) ≤ MAX_CONTEXT_CHARS ∧
    (_retrieve_pure route ch th).length ≤
      MAX_CONTEXT_CHARS + 2 * (retParts route ch th).length := by
  have hsum : sumLens (retParts route ch th) ≤ MAX_CONTEXT_CHARS := by
    by_cases hr : route = "both"
    · simp only [retParts, if_pos hr]
      obtain ⟨x1, y1⟩ := foldl_try_add_inv (sortScoreDesc ch) ⟨[], [], [], 0⟩
        (by simp [sumLens]) (by simp [MAX_CONTEXT_CHARS])
      obtain ⟨x2, y2⟩ := foldl_try_add_inv th _ x1 y1
      exact x2 ▸ y2
    · simp only [retParts, if_neg hr]
      obtain ⟨x2, y2⟩ := foldl_try_add_inv th ⟨[], [], [], 0⟩
        (by simp [sumLens]) (by simp [MAX_CONTEXT_CHARS])
      exact x2 ▸ y2
  refine ⟨hsum, ?_⟩
  calc (_retrieve_pure route ch th).length
      ≤ sumLens (retParts route ch th) + 2 * (retParts route ch th).length :=
        joinNN_length_le _
    _ ≤ MAX_CONTEXT_CHARS + 2 * (retParts route ch th).length := by omega


/-! ### Bound lemmas for the extractor -/

theorem bound_of_mem_readmePass {root : List String} {fs : List FileEntry}
    {cs : List Doc} (h : readmePass root fs = Except.ok cs) :
    ∀ c ∈ cs, 50 < c.page_content.length ∧ c.page_content.length < 5000 := by
  unfold readmePass at h
  split at h
  · simp only [Except.ok.injEq] at h
    subst h
    intro c hc
    cases hc
  · split at h
    · cases h
    · dsimp only at h
      split at h
      · next hb =>
        simp only [Except.ok.injEq] at h
        subst h
        intro c hc
        simp only [List.mem_singleton] at hc
        subst hc
        exact hb
      · simp only [Except.ok.injEq] at h
        subst h
        intro c hc
        cases hc

theorem bound_of_mem_emitText {root : List String} {f : FileEntry} {c : Doc}
    (h : c ∈ emitText root f) :
    50 < c.page_content.length ∧ c.page_content.length < 5000 := by
  unfold emitText at h
  split at h
  · cases h
  · split at h
    · cases h
    · dsimp only at h
      split at h
      · next hb =>
        simp only [List.mem_singleton] at h
        subst h
        exact hb
      · cases h

theorem bound_of_mem_emitPyNode {root : List String} {f : FileEntry}
    {node : PyNode} {c : Doc} (h : c ∈ emitPyNode root f node) :
    50 < c.page_content.length ∧ c.page_content.length < 5000 := by
  unfold emitPyNode at h
  rcases List.mem_append.mp h with h | h
  · split at h
    · split at h
      · next hb =>
        simp only [List.mem_singleton] at h
        subst h
        exact hb
      · cases h
    · cases h
  · split at h
    · split at h
      · next hb =>
        simp only [List.mem_singleton] at h
        subst h
        exact hb
      · cases h
    · cases h

theorem bound_of_mem_emitPy {root : List String} {f : FileEntry} {raw : String}
    {m : PyModule} {c : Doc} (h : c ∈ emitPy root f raw m) :
    50 < c.page_content.length ∧ c.page_content.length < 5000 := by
  unfold emitPy at h
  rcases List.mem_append.mp h with h | h
  · split at h
    · split at h
      · next hb =>
        simp only [List.mem_singleton] at h
        subst h
        exact hb
      · cases h
    · cases h
  · rcases List.mem_flatMap.mp h with ⟨node, -, hc⟩
    split at hc
    · exact bound_of_mem_emitPyNode hc
    · cases hc

theorem bound_of_mem_emitCell {root : List String} {f : FileEntry} {i : Nat}
    {cell : NbCell} {c : Doc} (h : c ∈ emitCell root f i cell) :
    50 < c.page_content.length ∧ c.page_content.length < 5000 := by
  unfold emitCell at h
  split at h
  · dsimp only at h
    split at h
    · next hb =>
      simp only [List.mem_singleton] at h
      subst h
      exact hb
    · cases h
  · cases h

theorem bound_of_mem_emitMisc {root : List String} {f : FileEntry} {c : Doc}
    (h : c ∈ emitMisc root f) :
    50 < c.page_content.length ∧ c.page_content.length < 5000 := by
  unfold emitMisc at h
  dsimp only at h
  by_cases hpy : strToLower (sfxOf f.fname) = ".py"
  · rw [if_pos hpy] at h
    split at h
    · cases h
    · split at h
      · cases h
      · exact bound_of_mem_emitPy h
  · rw [if_neg hpy] at h
    by_cases hnb : strToLower (sfxOf f.fname) = ".ipynb"
    · rw [if_pos hnb] at h
      split at h
      · cases h
      · rcases List.mem_flatMap.mp h with ⟨p, -, hc⟩
        exact bound_of_mem_emitCell hc
    · rw [if_neg hnb] at h
      split at h
      · cases h
      · split at h
        · next hb =>
          simp only [List.mem_singleton] at h
          subst h
          exact hb
        · cases h

theorem bound_of_mem_textPass {root : List String} {fs : List FileEntry} {c : Doc}
    (h : c ∈ textPass root fs) :
    50 < c.page_content.length ∧ c.page_content.length < 5000 := by
  rcases List.mem_flatMap.mp h with ⟨f, -, hc⟩
  exact bound_of_mem_emitText hc

theorem bound_of_mem_miscPass {root : List String} {fs : List FileEntry} {c : Doc}
    (h : c ∈ miscPass root fs) :
    50 < c.page_content.length ∧ c.page_content.length < 5000 := by
  rcases List.mem_flatMap.mp h with ⟨f, -, hc⟩
  exact bound_of_mem_emitMisc hc

/-- C1 amended: every chunk `extract_all_chunks` emits satisfies the
*strict* bound `50 < length < 5000` (the code tests `50 < len(content)`,
not `50 ≤`), and a root `README.md` whose stripped content has length
strictly inside the bound is emitted as a `readme`-tagged chunk rather
than dropped. -/
theorem c1_chunk_bounds :
    (∀ (root : List String) (fs : List FileEntry) (cs : List Doc),
      extract_all_chunks root fs = Except.ok cs →
      ∀ c ∈ cs, 50 < c.page_content.length ∧ c.page_content.length < 5000) ∧
    (∀ (root : List String) (fs : List FileEntry) (f : FileEntry) (raw : String),
      findReadme fs = some ("README.md", f) → f.read = some raw →
      50 < (pyStrip raw).length → (pyStrip raw).length < 5000 →
      ∃ cs, extract_all_chunks root fs = Except.ok cs ∧ mkReadmeDoc root raw ∈ cs) := by
  constructor
  · intro root fs cs h c hc
    unfold extract_all_chunks at h
    split at h
    · cases h
    · next c1 hp =>
      simp only [Except.ok.injEq] at h
      subst h
      rcases List.mem_append.mp hc with hc | hc
      · rcases List.mem_append.mp hc with hc | hc
        · exact bound_of_mem_readmePass hp c hc
        · exact bound_of_mem_textPass hc
      · exact bound_of_mem_miscPass hc
  · intro root fs f raw hf hr h1 h2
    have hp : readmePass root fs = Except.ok [mkReadmeDoc root raw] := by
      unfold readmePass
      rw [hf]
      dsimp only
      rw [hr]
      dsimp only
      rw [if_pos ⟨h1, h2⟩]
      rfl
    refine ⟨[mkReadmeDoc root raw] ++ textPass root fs ++ miscPass root fs, ?_, ?_⟩
    · unfold extract_all_chunks
      rw [hp]
    · simp

/-- C1 counterexample: a root `README.md` whose stripped content has
length exactly 50 is dropped — `extract_all_chunks` emits no chunk at
all — contradicting the claimed inclusive lower bound `50 ≤ length`. -/
theorem c1_counterexample :
    (pyStrip chars50).length = 50 ∧
    extract_all_chunks [] fsLen50 = Except.ok [] :=
  ⟨by decide, rfl⟩

/-- C1 witness: a 51-character root `README.md` is within the strict
bound and yields the `readme` chunk. -/
theorem c1_chunk_bounds_witness :
    ∃ cs, extract_all_chunks [] fsLen51 = Except.ok cs ∧
      mkReadmeDoc [] chars51 ∈ cs :=
  c1_chunk_bounds.2 [] fsLen51 ⟨[], "README.md", some chars51, none, none⟩
    chars51 (by decide) rfl (by decide) (by decide)

/-- C4 (code bug): a root README whose `read_text` raises makes
`extract_all_chunks` itself raise — the README pass (chunking.py lines
198 - 213) has no try/except — while the same failure in the text pass
or the code/misc pass is silently skipped, as the contract requires. -/
theorem c4_readme_read_raises :
    extract_all_chunks [] fsBadReadme = Except.error () ∧
    extract_all_chunks [] fsBadNotes = Except.ok [] ∧
    extract_all_chunks [] fsBadPy = Except.ok [] :=
  ⟨rfl, rfl, rfl⟩


/-! ### Canonicalization of `_stable_id` under dict key order -/

theorem charEq_of_toNat_eq {a b : Char} (h : a.toNat = b.toNat) : a = b := by
  have h3 : a.val.toBitVec.toNat = b.val.toBitVec.toNat := h
  exact Char.ext (UInt32.eq_of_toBitVec_eq (BitVec.eq_of_toNat_eq h3))

theorem charListLe_total : ∀ x y : List Char,
    charListLe x y = true ∨ charListLe y x = true := by
  intro x
  induction x with
  | nil => intro y; left; rfl
  | cons c cs ih =>
    intro y
    cases y with
    | nil => right; rfl
    | cons d ds =>
      rcases Nat.lt_trichotomy c.toNat d.toNat with h | h | h
      · left
        simp only [charListLe]
        rw [if_pos h]
      · have hn1 : ¬c.toNat < d.toNat := by omega
        have hn2 : ¬d.toNat < c.toNat := by omega
        rcases ih ds with hh | hh
        · left
          simp only [charListLe]
          rw [if_neg hn1, if_neg hn2]
          exact hh
        · right
          simp only [charListLe]
          rw [if_neg hn2, if_neg hn1]
          exact hh
      · right
        simp only [charListLe]
        rw [if_pos h]

theorem charListLe_trans : ∀ x y z : List Char,
    charListLe x y = true → charListLe y z = true → charListLe x z = true := by
  intro x
  induction x with
  | nil => intro y z _ _; rfl
  | cons cx xs ih =>
    intro y z hxy hyz
    cases y with
    | nil => exact absurd hxy (by simp [charListLe])
    | cons cy ys =>
      cases z with
      | nil => exact absurd hyz (by simp [charListLe])
      | cons cz zs =>
        simp only [charListLe] at hxy hyz ⊢
        by_cases h1 : cx.toNat < cy.toNat
        · by_cases h2 : cy.toNat < cz.toNat
          · rw [if_pos (by omega : cx.toNat < cz.toNat)]
          · by_cases h2b : cz.toNat < cy.toNat
            · rw [if_neg h2, if_pos h2b] at hyz
              exact absurd hyz (by simp)
            · rw [if_pos (by omega : cx.toNat < cz.toNat)]
        · by_cases h1b : cy.toNat < cx.toNat
          · rw [if_neg h1, if_pos h1b] at hxy
            exact absurd hxy (by simp)
          · by_cases h2 : cy.toNat < cz.toNat
            · rw [if_pos (by omega : cx.toNat < cz.toNat)]
            · by_cases h2b : cz.toNat < cy.toNat
              · rw [if_neg h2, if_pos h2b] at hyz
                exact absurd hyz (by simp)
              · rw [if_neg (by omega : ¬cx.toNat < cz.toNat),
                    if_neg (by omega : ¬cz.toNat < cx.toNat)]
                rw [if_neg h1, if_neg h1b] at hxy
                rw [if_neg h2, if_neg h2b] at hyz
                exact ih ys zs hxy hyz

theorem charListLe_antisymm : ∀ x y : List Char,
    charListLe x y = true → charListLe y x = true → x = y := by
  intro x
  induction x with
  | nil =>
    intro y _ hyx
    cases y with
    | nil => rfl
    | cons d ds => exact absurd hyx (by simp [charListLe])
  | cons c cs ih =>
    intro y hxy hyx
    cases y with
    | nil => exact absurd hxy (by simp [charListLe])
    | cons d ds =>
      simp only [charListLe] at hxy hyx
      by_cases h1 : c.toNat < d.toNat
      · rw [if_neg (by omega : ¬d.toNat < c.toNat), if_pos h1] at hyx
        exact absurd hyx (by simp)
      · by_cases h2 : d.toNat < c.toNat
        · rw [if_neg h1, if_pos h2] at hxy
          exact absurd hxy (by simp)
        · rw [if_neg h1, if_neg h2] at hxy
          rw [if_neg h2, if_neg h1] at hyx
          rw [charEq_of_toNat_eq (by omega : c.toNat = d.toNat), ih ds hxy hyx]

theorem strEq_of_data_eq {a b : String} (h : a.data = b.data) : a = b := by
  cases a
  cases b
  exact congrArg String.mk h

/-- Sorting the items of the same dict (a permutation with unique keys)
gives the same canonical list. -/
theorem mdSort_perm_eq (l1 l2 : List (String × String)) (hp : l1.Perm l2)
    (hn : (l1.map Prod.fst).Nodup) : mdSort l1 = mdSort l2 := by
  haveI : IsTotal (String × String) keyLe := ⟨fun a b => charListLe_total _ _⟩
  haveI : IsTrans (String × String) keyLe := ⟨fun a b c => charListLe_trans _ _ _⟩
  have hs1 : List.Sorted keyLe (mdSort l1) := List.sorted_insertionSort keyLe l1
  have hs2 : List.Sorted keyLe (mdSort l2) := List.sorted_insertionSort keyLe l2
  have hp1 : (mdSort l1).Perm l1 := List.perm_insertionSort keyLe l1
  have hp2 : (mdSort l2).Perm l2 := List.perm_insertionSort keyLe l2
  have hperm : (mdSort l1).Perm (mdSort l2) := hp1.trans (hp.trans hp2.symm)
  have hn1 : ((mdSort l1).map Prod.fst).Nodup := ((hp1.map Prod.fst).nodup_iff).mpr hn
  have hn2 : ((mdSort l2).map Prod.fst).Nodup :=
    ((hp2.map Prod.fst).nodup_iff).mpr (((hp.map Prod.fst).nodup_iff).mp hn)
  haveI : IsAntisymm (String × String) (fun a b => keyLe a b ∧ a.1 ≠ b.1) := by
    constructor
    intro a b hab hba
    exfalso
    exact hab.2 (strEq_of_data_eq (charListLe_antisymm _ _ hab.1 hba.1))
  refine List.eq_of_perm_of_sorted (r := fun a b => keyLe a b ∧ a.1 ≠ b.1) hperm ?_ ?_
  · exact hs1.and (List.pairwise_map.mp hn1)
  · exact hs2.and (List.pairwise_map.mp hn2)

theorem getmd_eq_head (k : String) (l : List (String × String)) :
    getmd k l = ((l.filter (fun p => decide (p.1 = k))).head?).map Prod.snd := by
  induction l with
  | nil => rfl
  | cons p t ih =>
    by_cases h : p.1 = k
    · simp [getmd, h, List.filter_cons]
    · simp [getmd, h, List.filter_cons, ih]

/-- `dict.get` is invariant under reordering of an association list with
unique keys. -/
theorem getmd_perm {l1 l2 : List (String × String)} (hp : l1.Perm l2)
    (hn : (l1.map Prod.fst).Nodup) (k : String) : getmd k l1 = getmd k l2 := by
  rw [getmd_eq_head, getmd_eq_head]
  have hf : (l1.filter (fun p => decide (p.1 = k))).Perm
      (l2.filter (fun p => decide (p.1 = k))) := hp.filter _
  have hle : (l1.filter (fun p => decide (p.1 = k))).length ≤ 1 := by
    rcases hfl : l1.filter (fun p => decide (p.1 = k)) with - | ⟨a, - | ⟨b, t⟩⟩
    · simp [hfl]
    · simp [hfl]
    · exfalso
      have hsub : (a :: b :: t).Sublist l1 := hfl ▸ List.filter_sublist l1
      have hnd : ((a :: b :: t).map Prod.fst).Nodup :=
        List.Nodup.sublist (hsub.map Prod.fst) hn
      have ha : a ∈ l1.filter (fun p => decide (p.1 = k)) := by simp [hfl]
      have hb : b ∈ l1.filter (fun p => decide (p.1 = k)) := by simp [hfl]
      have hak : a.1 = k := by simpa using (List.of_mem_filter ha)
      have hbk : b.1 = k := by simpa using (List.of_mem_filter hb)
      simp only [List.map_cons, List.nodup_cons] at hnd
      exact hnd.1 (by simp [hak, hbk])
  have heq : l1.filter (fun p => decide (p.1 = k)) =
      l2.filter (fun p => decide (p.1 = k)) := by
    rcases hfl : l1.filter (fun p => decide (p.1 = k)) with - | ⟨a, t⟩
    · rw [hfl] at hf
      rw [hfl]
      exact (hf.symm.eq_nil).symm
    · rw [hfl] at hf hle
      cases t with
      | cons b t2 => simp at hle
      | nil =>
        rw [hfl]
        exact (List.perm_singleton.mp hf.symm).symm
  rw [heq]

/-- `_stable_id` depends only on the content and the metadata dict, not
on the association order. -/
theorem _stable_id_congr {d1 d2 : Doc} (hc : d1.page_content = d2.page_content)
    (hp : d1.metadata.Perm d2.metadata)
    (hn : (d1.metadata.map Prod.fst).Nodup) : _stable_id d1 = _stable_id d2 := by
  unfold _stable_id jsonDumpsSorted
  rw [hc, mdSort_perm_eq d1.metadata d2.metadata hp hn]

/-- `_is_text` depends only on the metadata dict. -/
theorem _is_text_equiv {d1 d2 : Doc} (h : DocEquiv d1 d2) :
    _is_text d1 = _is_text d2 := by
  obtain ⟨hc, hp, hn⟩ := h
  have ht := getmd_perm hp hn "type"
  have hf := getmd_perm hp hn "file_ext"
  have hs := getmd_perm hp hn "source"
  have hm := getmd_perm hp hn "name"
  unfold _is_text _guess_ext
  rw [ht, hf, hs, hm]

theorem ids_equiv_aux : ∀ {cs1 cs2 : List Doc}, List.Forall₂ DocEquiv cs1 cs2 →
    textIds cs1 = textIds cs2 ∧ codeIds cs1 = codeIds cs2 := by
  intro cs1 cs2 h
  induction h with
  | nil => exact ⟨rfl, rfl⟩
  | @cons d1 d2 t1 t2 hd tl ih =>
    obtain ⟨hc, hp, hn⟩ := hd
    have hit : _is_text d1 = _is_text d2 := _is_text_equiv ⟨hc, hp, hn⟩
    have hid : _stable_id d1 = _stable_id d2 := _stable_id_congr hc hp hn
    unfold textIds codeIds docsFilter at ih ⊢
    simp only [List.filter_cons]
    rw [hc]
    by_cases hcond : (!d2.page_content.isEmpty &&
        (decide (30 ≤ d2.page_content.length) &&
         decide (d2.page_content.length ≤ 10000))) = true
    · simp only [hcond, eq_self_iff_true, if_true, List.filter_cons]
      rw [hit]
      by_cases hist : _is_text d2 = true
      · simp only [hist, Bool.not_true, eq_self_iff_true, if_true,
          Bool.false_eq_true, if_false, List.map_cons]
        rw [hid]
        exact ⟨by rw [ih.1], ih.2⟩
      · have hb : _is_text d2 = false := by
          revert hist
          cases _is_text d2 <;> simp
        simp only [hb, Bool.not_false, eq_self_iff_true, if_true,
          Bool.false_eq_true, if_false, List.map_cons]
        rw [hid]
        exact ⟨ih.1, by rw [ih.2]⟩
    · have hcond' : (!d2.page_content.isEmpty &&
          (decide (30 ≤ d2.page_content.length) &&
           decide (d2.page_content.length ≤ 10000))) = false := by
        revert hcond
        cases (!d2.page_content.isEmpty &&
          (decide (30 ≤ d2.page_content.length) &&
           decide (d2.page_content.length ≤ 10000))) <;> simp
      simp only [hcond', Bool.false_eq_true, if_false]
      exact ih

/-- C5: `_stable_id` is a deterministic function of
`content || sorted-key JSON(metadata)`: documents with equal content and
equal metadata dicts (any association order, unique keys) get the same
id, and consequently two back-to-back index builds over an unchanged
chunk set (dict orders may vary between runs) produce identical TEXT and
CODE id lists. -/
theorem c5_stable_ids :
    (∀ d1 d2 : Doc, d1.page_content = d2.page_content →
      d1.metadata.Perm d2.metadata → (d1.metadata.map Prod.fst).Nodup →
      _stable_id d1 = _stable_id d2) ∧
    (∀ cs1 cs2 : List Doc, List.Forall₂ DocEquiv cs1 cs2 →
      textIds cs1 = textIds cs2 ∧ codeIds cs1 = codeIds cs2) :=
  ⟨fun _ _ hc hp hn => _stable_id_congr hc hp hn, fun _ _ h => ids_equiv_aux h⟩

/-- C5 witness: the same content with the same two-key metadata dict in
the two possible association orders hashes to the same id. -/
theorem c5_stable_ids_witness : _stable_id docMeta1 = _stable_id docMeta2 :=
  c5_stable_ids.1 docMeta1 docMeta2 rfl (by decide) (by decide)


/-! ### Path lemmas and the double emission of prose files (C10) -/

theorem foldl_step_no_slash : ∀ (l acc : List Char), ('/' : Char) ∉ l →
    l.foldl (fun acc c => if c = '/' then [] else acc ++ [c]) acc = acc ++ l := by
  intro l
  induction l with
  | nil => intro acc _; simp
  | cons c t ih =>
    intro acc h
    simp only [List.mem_cons, not_or] at h
    simp only [List.foldl_cons]
    rw [if_neg (fun he => h.1 he.symm), ih (acc ++ [c]) h.2]
    simp

theorem baseNameOf_no_slash (x : String) (h : ('/' : Char) ∉ x.data) :
    baseNameOf x = x := by
  unfold baseNameOf
  rw [foldl_step_no_slash x.data [] h]
  cases x
  rfl

theorem baseNameOf_slash (p rest : String) :
    baseNameOf (p ++ "/" ++ rest) = baseNameOf rest := by
  unfold baseNameOf
  rw [String.data_append, String.data_append, List.foldl_append, List.foldl_append]
  rfl

theorem baseNameOf_pathStr : ∀ (l : List String) (x : String),
    ('/' : Char) ∉ x.data → baseNameOf (pathStr (l ++ [x])) = x := by
  intro l
  induction l with
  | nil => intro x h; exact baseNameOf_no_slash x h
  | cons a t ih =>
    intro x h
    have hps : pathStr ((a :: t) ++ [x]) = a ++ "/" ++ pathStr (t ++ [x]) := by
      cases t <;> simp [pathStr]
    rw [hps, baseNameOf_slash, ih x h]

/-- A non-empty `Path(name).suffix` is a suffix of the name itself. -/
theorem sfxOf_isSuffixOf {name sfx : String} (h : sfxOf name = sfx)
    (hne : sfx ≠ "") : sfx.data.isSuffixOf name.data = true := by
  unfold sfxOf at h
  split at h
  · exact absurd h.symm hne
  · split at h
    · rw [← h]
      exact List.isSuffixOf_iff_suffix.mpr (List.drop_suffix _ _)
    · exact absurd h.symm hne

theorem contains_of_isSuffixOf {name sfx : String} {c : Char}
    (h3 : sfx.data.isSuffixOf name.data = true) (hc : c ∈ sfx.data) :
    name.data.contains c = true :=
  List.elem_eq_true_of_mem
    (List.IsSuffix.subset (List.isSuffixOf_iff_suffix.mp h3) hc)

/-- Any chunk pass 2 emits for a file whose name matches one of the
three `rglob` patterns is in the output of pass 2 over the whole
repository. -/
theorem mem_textPass_of {root : List String} {fs : List FileEntry}
    {f : FileEntry} (hmem : f ∈ fs)
    (hpat : ".md".data.isSuffixOf f.fname.data = true ∨
            ".rst".data.isSuffixOf f.fname.data = true ∨
            ".txt".data.isSuffixOf f.fname.data = true)
    {c : Doc} (hc : c ∈ emitText root f) : c ∈ textPass root fs := by
  unfold textPass
  refine List.mem_flatMap.mpr ⟨f, ?_, hc⟩
  rcases hpat with h | h | h
  · exact List.mem_append.mpr (Or.inl (List.mem_append.mpr (Or.inl
      (List.mem_filter.mpr ⟨hmem, h⟩))))
  · exact List.mem_append.mpr (Or.inl (List.mem_append.mpr (Or.inr
      (List.mem_filter.mpr ⟨hmem, h⟩))))
  · exact List.mem_append.mpr (Or.inr (List.mem_filter.mpr ⟨hmem, h⟩))

/-- Any chunk pass 3 emits for a dotted, non-low-value file is in the
output of pass 3 over the whole repository. -/
theorem mem_miscPass_of {root : List String} {fs : List FileEntry}
    {f : FileEntry} (hmem : f ∈ fs)
    (h9 : f.fname.data.contains '.' = true)
    (h5 : is_low_value_file (fileParts root f) = false)
    {c : Doc} (hc : c ∈ emitMisc root f) : c ∈ miscPass root fs := by
  unfold miscPass
  refine List.mem_flatMap.mpr ⟨f, List.mem_filter.mpr ⟨hmem, ?_⟩, hc⟩
  simp [h5]
  exact List.mem_of_elem_eq_true h9

theorem doc_isEmpty_false {d : Doc} (h : 30 ≤ d.page_content.length) :
    d.page_content.isEmpty = false := by
  rw [Bool.eq_false_iff]
  intro hT
  rw [(String.isEmpty_iff _).mp hT] at h
  simp at h

/-- Two TEXT-classified chunks inside the size filter both contribute
their stable ids to the TEXT index. -/
theorem textIds_pair {d1 d2 : Doc}
    (h1 : _is_text d1 = true) (h2 : _is_text d2 = true)
    (hb1 : 30 ≤ d1.page_content.length ∧ d1.page_content.length ≤ 10000)
    (hb2 : 30 ≤ d2.page_content.length ∧ d2.page_content.length ≤ 10000) :
    textIds [d1, d2] = [_stable_id d1, _stable_id d2] := by
  have hA := doc_isEmpty_false hb1.1
  have hB := doc_isEmpty_false hb2.1
  unfold textIds docsFilter
  have hc1 : (!d1.page_content.isEmpty &&
      (decide (30 ≤ d1.page_content.length) &&
       decide (d1.page_content.length ≤ 10000))) = true := by
    simp only [hA, Bool.not_false, Bool.true_and, Bool.and_eq_true,
      decide_eq_true_eq]
    omega
  have hc2 : (!d2.page_content.isEmpty &&
      (decide (30 ≤ d2.page_content.length) &&
       decide (d2.page_content.length ≤ 10000))) = true := by
    simp only [hB, Bool.not_false, Bool.true_and, Bool.and_eq_true,
      decide_eq_true_eq]
    omega
  simp only [List.filter_cons, List.filter_nil, hc1, hc2, h1, h2,
    eq_self_iff_true, if_true, List.map_cons, List.map_nil]


/-- C10: in any repository whose README pass succeeds, every readable
`*.md`, `*.rst` or `*.txt` file (lower-case suffix, bare extension `e`)
that is neither a `readme.md` (case-insensitive) nor low-value, with
raw and stripped content inside the strict bound, is emitted twice by
`extract_all_chunks` — once by the text pass (stripped content,
`file_ext = type = e`) and once by the code/misc pass (raw content,
`file_ext = "code"`, dotted suffix as type) — the two chunks are both
classified TEXT, have different metadata, and both land in the TEXT
index; at the concrete instance `docs/guide.md` the two stable ids
differ. -/
theorem c10_double_emission (root : List String) (fs : List FileEntry)
    (f : FileEntry) (s e : String) (cs0 : List Doc)
    (he : e = "md" ∨ e = "rst" ∨ e = "txt")
    (hmem : f ∈ fs)
    (h1 : f.read = some s)
    (h2 : sfxOf f.fname = "." ++ e)
    (h4 : ¬strToLower f.fname = "readme.md")
    (h5 : is_low_value_file (fileParts root f) = false)
    (h6 : 50 < s.length ∧ s.length < 5000)
    (h7 : 50 < (pyStrip s).length ∧ (pyStrip s).length < 5000)
    (hro : readmePass root fs = Except.ok cs0)
    (h12 : ('/' : Char) ∉ f.fname.data) :
    (∃ cs, extract_all_chunks root fs = Except.ok cs ∧
       textDocOf root f s e ∈ cs ∧ codeDocOf root f s e ∈ cs) ∧
    _is_text (textDocOf root f s e) = true ∧
    _is_text (codeDocOf root f s e) = true ∧
    (textDocOf root f s e).metadata ≠ (codeDocOf root f s e).metadata ∧
    textIds [textDocOf root f s e, codeDocOf root f s e] =
      [_stable_id (textDocOf root f s e), _stable_id (codeDocOf root f s e)] ∧
    _stable_id (textDocOf [] fGuide mdContent "md") ≠
      _stable_id (codeDocOf [] fGuide mdContent "md") := by
  rcases he with he | he | he
  all_goals
    subst he
    have hname_ne : f.fname ≠ "" := by
      intro hE
      rw [hE] at h2
      exact absurd h2 (by decide)
    have hbase : baseNameOf (filePath root f) = f.fname := by
      unfold filePath
      exact baseNameOf_pathStr (root ++ f.dirs) f.fname h12
    have hsrc_ne : filePath root f ≠ "" := by
      intro hE
      rw [hE] at hbase
      exact hname_ne ((by decide : baseNameOf "" = "") ▸ hbase).symm
    have h3 := sfxOf_isSuffixOf h2 (by decide)
    have h9 : f.fname.data.contains '.' = true :=
      contains_of_isSuffixOf h3 (by decide)
    refine ⟨⟨cs0 ++ textPass root fs ++ miscPass root fs, ?_, ?_, ?_⟩,
      ?_, ?_, ?_, ?_, ?_⟩
    · unfold extract_all_chunks
      rw [hro]
    · refine List.mem_append.mpr (Or.inl (List.mem_append.mpr (Or.inr
        (mem_textPass_of hmem ?_ ?_))))
      · first
        | exact Or.inl h3
        | exact Or.inr (Or.inl h3)
        | exact Or.inr (Or.inr h3)
      · unfold emitText
        rw [if_neg h4, h1]
        dsimp only
        rw [if_pos h7, h2]
        exact List.mem_singleton.mpr rfl
    · refine List.mem_append.mpr (Or.inr (mem_miscPass_of hmem h9 h5 ?_))
      unfold emitMisc
      dsimp only
      rw [h2, h1]
      dsimp only
      rw [if_pos h6]
      exact List.mem_singleton.mpr rfl
    · rfl
    · unfold _is_text _guess_ext codeDocOf
      dsimp only
      simp [getmd, hsrc_ne, hbase, h2]
      have hc1 : (_norm_ext "code" = "" ∨ _norm_ext "code" = "code") = True :=
        eq_true (by decide)
      have hc2a : (_norm_ext ".md" = "") = False := eq_false (by decide)
      have hc2b : (_norm_ext ".rst" = "") = False := eq_false (by decide)
      have hc2c : (_norm_ext ".txt" = "") = False := eq_false (by decide)
      have hc2d : (_norm_ext ("." ++ "md") = "") = False := eq_false (by decide)
      have hc2e : (_norm_ext ("." ++ "rst") = "") = False := eq_false (by decide)
      have hc2f : (_norm_ext ("." ++ "txt") = "") = False := eq_false (by decide)
      simp only [hc1, if_true, hc2a, hc2b, hc2c, hc2d, hc2e, hc2f,
        false_and, if_false]
      exact Or.inr ⟨by decide, Or.inl (by decide)⟩
    · intro hE
      simp [textDocOf, codeDocOf] at hE
    · refine textIds_pair rfl ?_ ?_ ?_
      · unfold _is_text _guess_ext codeDocOf
        dsimp only
        simp [getmd, hsrc_ne, hbase, h2]
        have hc1 : (_norm_ext "code" = "" ∨ _norm_ext "code" = "code") = True :=
          eq_true (by decide)
        have hc2a : (_norm_ext ".md" = "") = False := eq_false (by decide)
        have hc2b : (_norm_ext ".rst" = "") = False := eq_false (by decide)
        have hc2c : (_norm_ext ".txt" = "") = False := eq_false (by decide)
        have hc2d : (_norm_ext ("." ++ "md") = "") = False := eq_false (by decide)
        have hc2e : (_norm_ext ("." ++ "rst") = "") = False := eq_false (by decide)
        have hc2f : (_norm_ext ("." ++ "txt") = "") = False := eq_false (by decide)
        simp only [hc1, if_true, hc2a, hc2b, hc2c, hc2d, hc2e, hc2f,
          false_and, if_false]
        exact Or.inr ⟨by decide, Or.inl (by decide)⟩
      · show 30 ≤ (pyStrip s).length ∧ (pyStrip s).length ≤ 10000
        omega
      · show 30 ≤ s.length ∧ s.length ≤ 10000
        omega
    · decide

/-- C10 witness: the theorem applied to the concrete repository holding
only the file `docs/guide.md` with 60 characters of content. -/
theorem c10_double_emission_witness :
    (∃ cs, extract_all_chunks [] [fGuide] = Except.ok cs ∧
       textDocOf [] fGuide mdContent "md" ∈ cs ∧
       codeDocOf [] fGuide mdContent "md" ∈ cs) ∧
    _is_text (textDocOf [] fGuide mdContent "md") = true ∧
    _is_text (codeDocOf [] fGuide mdContent "md") = true ∧
    (textDocOf [] fGuide mdContent "md").metadata ≠
      (codeDocOf [] fGuide mdContent "md").metadata ∧
    textIds [textDocOf [] fGuide mdContent "md",
             codeDocOf [] fGuide mdContent "md"] =
      [_stable_id (textDocOf [] fGuide mdContent "md"),
       _stable_id (codeDocOf [] fGuide mdContent "md")] ∧
    _stable_id (textDocOf [] fGuide mdContent "md") ≠
      _stable_id (codeDocOf [] fGuide mdContent "md") :=
  c10_double_emission [] [fGuide] fGuide mdContent "md" []
    (Or.inl rfl) (List.mem_singleton.mpr rfl) rfl (by decide) (by decide)
    (by decide) (by decide) (by decide) rfl (by decide)

/-- C9 (code bug): with human notes present the router goes to REVISE,
but since `n_revise` never clears `_human_notes`, the routing after that
forced REVISE is *again* forced to REVISE — not decided by the judge
verdict and retry counter — even though the same state without notes
would route to SAVE. -/
theorem c9_human_notes_not_once :
    decide_pass_or_revise stHuman = "revise" ∧
    (n_revise_upd stHuman "d2").human_notes = some "Please fix the tone" ∧
    decide_pass_or_revise (n_revise_upd stHuman "d2") = "revise" ∧
    decide_pass_or_revise
      { n_revise_upd stHuman "d2" with human_notes := none } = "save" := by
  exact ⟨by decide, rfl, by decide, by decide⟩

end AutoDocGen
